import Mathlib

/-!
Verification development for the ncu-rs dependency reconciliation tool
(src/main.rs). Strings are modelled as lists of characters, JSON values as
an ordered tree, and the reqwest client as an oracle from request URL to
either a typed fetch failure or a JSON response body. Every definition is a
direct embedding of the corresponding item in src/main.rs.
-/

/-- Strings of the source are modelled as lists of characters. -/
abbrev Str := List Char

/-- Shorthand turning a Lean string literal into the list-of-characters model. -/
def toL (s : String) : Str := s.data

/-- The constant API_URL of src/main.rs, note the trailing slash. -/
def API_URL : Str := toL "https://registry.npmjs.org/"

/-- The constant DEP_KEY of src/main.rs. -/
def DEP_KEY : Str := toL "dependencies"

/-- The constant DEV_DEP_KEY of src/main.rs. -/
def DEV_DEP_KEY : Str := toL "devDependencies"

/-- The error taxonomy of the registry client boundary. -/
inductive FetchError where
  | timeout
  | notFound
  | malformed
  | transport
deriving DecidableEq

/-- Model of serde_json Value, with object fields as an ordered list, the
iteration-order-preserving reading of the manifest used by the source
(IndexMap for the two dependency maps). -/
inductive JValue where
  | null
  | bool (b : Bool)
  | num (n : Int)
  | str (s : Str)
  | arr (elems : List JValue)
  | obj (fields : List (Str × JValue))

/-- Lookup of a key among object fields, first match wins (keys are unique
in a serde_json map). -/
def jGetFields (fields : List (Str × JValue)) (key : Str) : Option JValue :=
  match fields with
  | [] => none
  | (k, v) :: rest => if k = key then some v else jGetFields rest key

/-- Model of Value.get on a serde_json Value. -/
def jGet (v : JValue) (key : Str) : Option JValue :=
  match v with
  | .obj fields => jGetFields fields key
  | _ => none

/-- Replace the value at a key among object fields, leaving the fields
unchanged when the key is absent. -/
def jSetFields (fields : List (Str × JValue)) (key : Str) (newVal : JValue) :
    List (Str × JValue) :=
  match fields with
  | [] => []
  | (k, v) :: rest =>
    if k = key then (k, newVal) :: rest else (k, v) :: jSetFields rest key newVal

/-- Model of the pattern: if let Some(slot) = value.get_mut(key) then
assigning newVal through the mutable borrow. -/
def jSet (v : JValue) (key : Str) (newVal : JValue) : JValue :=
  match v with
  | .obj fields => .obj (jSetFields fields key newVal)
  | w => w

/-- Model of IndexMap of String to String: an ordered association list. -/
abbrev StrMap := List (Str × Str)

/-- Lookup in the map, first match wins. -/
def mapLookup (m : StrMap) (k : Str) : Option Str :=
  match m with
  | [] => none
  | (k', v) :: rest => if k' = k then some v else mapLookup rest k

/-- Key membership in the map. -/
def mapContains (m : StrMap) (k : Str) : Bool :=
  match m with
  | [] => false
  | (k', _) :: rest => if k' = k then true else mapContains rest k

/-- IndexMap.insert semantics: an existing key keeps its position and gets
the new value, a fresh key is appended at the end. -/
def mapInsert (m : StrMap) (k v : Str) : StrMap :=
  match m with
  | [] => [(k, v)]
  | (k', v') :: rest =>
    if k' = k then (k', v) :: rest else (k', v') :: mapInsert rest k v

/-- Key sequence of the map, in order. -/
def mapKeys (m : StrMap) : List Str := m.map Prod.fst

/-- serde_json to_value of an IndexMap of strings: a JSON object in
iteration order. -/
def mapToJson (m : StrMap) : JValue := .obj (m.map (fun kv => (kv.fst, .str kv.snd)))

/-! ## Constraint model (lines 168-175 of compare_package_version) -/

/-- The cmp_ver computation: version.replace of the caret with the empty
string, then replace of the tilde with the empty string; replacing a
character with the empty string removes every occurrence of it. -/
def cmp_ver (version : Str) : Str :=
  (version.filter (fun c => c != '^')).filter (fun c => c != '~')

/-- The ver_prefix computation: the caret when the declared string contains
one anywhere, else the tilde when it contains one anywhere, else empty. -/
def verPrefix (version : Str) : Str :=
  if version.contains '^' then toL "^"
  else if version.contains '~' then toL "~"
  else []

/-! ## Registry client (get_package_version, lines 199-210) -/

/-- The network oracle: maps a request URL to a transport-level failure or
the JSON body of the response. -/
abbrev Http := Str → Except FetchError JValue

/-- The URL built by get_package_version: format of API_URL, a slash, the
package name, and the literal latest segment. -/
def package_url (package_name : Str) : Str :=
  API_URL ++ toL "/" ++ package_name ++ toL "/latest"

/-- Embeds get_package_version: perform the GET on the built URL and decode
the body as GetPackageResponse, whose single field is version (a string);
any other body shape is a malformed-response failure. -/
def get_package_version (http : Http) (package_name : Str) : Except FetchError Str :=
  match http (package_url package_name) with
  | .error e => .error e
  | .ok body =>
    match jGet body (toL "version") with
    | some (.str v) => .ok v
    | _ => .error .malformed

/-! ## Reconciliation (compare_package_version, lines 162-196) -/

/-- The PackageUpdateData struct of src/main.rs. -/
structure PackageUpdateData where
  package_name : Str
  old_version : Str
  new_version : Str
  dev : Bool
deriving DecidableEq

/-- A reportable warning: the println in the error arm of
compare_package_version names the package and the failure. -/
structure FetchWarning where
  package_name : Str
  reason : FetchError
deriving DecidableEq

/-- Embeds compare_package_version: strip the markers to obtain cmp_ver,
choose the prefix, fetch the latest version; on success return an update
exactly when the fetched string differs from cmp_ver, with the original
declared string as old_version and the prefix glued onto the fetched
string as new_version; on failure return no update and one warning (the
println of the error arm). -/
def compare_package_version (http : Http) (version : Str) (package_name : Str)
    (dev : Bool) : Option PackageUpdateData × List FetchWarning :=
  match get_package_version http package_name with
  | .ok latest_version =>
    if latest_version ≠ cmp_ver version then
      (some ⟨package_name, version, verPrefix version ++ latest_version, dev⟩, [])
    else
      (none, [])
  | .error err => (none, [⟨package_name, err⟩])

/-! ## Batch machinery (await_futures lines 130-141, process_dependencies
lines 145-160). A future of compare_package_version is modelled by the
value it yields when polled. -/

/-- Embeds await_futures: awaits each future in order and pushes each Some
result onto updates_vec; its Result return value is always Ok, and the
final content of the mutable vector is returned here. -/
def await_futures (futures : List (Option PackageUpdateData))
    (updates_vec : List PackageUpdateData) : List PackageUpdateData :=
  match futures with
  | [] => updates_vec
  | f :: rest =>
    match f with
    | some update => await_futures rest (updates_vec ++ [update])
    | none => await_futures rest updates_vec

/-- Embeds process_dependencies as written: the updates vector is created
empty; the par_iter for_each loop binds a compare_package_version future
for each entry to a local that is dropped without being pushed into the
updates vector or polled; await_futures then collects from the empty
vector into update_dest, which is returned. The http oracle is never
consulted on this path, so no decision and no warning can be produced. -/
def process_dependencies (http : Http) (deps : StrMap) (dev : Bool) :
    List PackageUpdateData × List FetchWarning :=
  let updates : List (Option PackageUpdateData) := []
  let update_dest := await_futures updates []
  (update_dest, [])

/-! ## Write-back (insert_new_maps lines 213-226, main lines 84-118) -/

/-- Embeds insert_new_maps: when the dependencies key is present its value
is replaced by the serialization of deps, likewise for devDependencies;
absent keys are not created; serde_json to_value of a string map cannot
fail, so the Result is always Ok. -/
def insert_new_maps (package_json : JValue) (deps dev_deps : StrMap) :
    Except String JValue :=
  .ok (jSet (jSet package_json DEP_KEY (mapToJson deps)) DEV_DEP_KEY (mapToJson dev_deps))

/-- The two summary println branches of main, lines 110-117. -/
inductive SummaryMessage where
  | updated
  | noUpdates
deriving DecidableEq

/-- Observable outcome of the update loop and write-back of main: the two
dependency maps after the loop, the did_update_packages flag, the value
written to the manifest path when fs write ran, and the summary message
selected. -/
structure ApplyResult where
  deps : StrMap
  dev_deps : StrMap
  did_update_packages : Bool
  written : Option JValue
  message : Option SummaryMessage

/-- One iteration of the for loop of main, lines 85-100: the update line is
printed, did_update_packages is set, and in update mode the new version is
inserted into the map of the matching dependency group. -/
def update_step (should_update : Bool) (st : StrMap × StrMap × Bool)
    (update : PackageUpdateData) : StrMap × StrMap × Bool :=
  if should_update then
    if update.dev then
      (st.1, mapInsert st.2.1 update.package_name update.new_version, true)
    else
      (mapInsert st.1 update.package_name update.new_version, st.2.1, true)
  else
    (st.1, st.2.1, true)

/-- The for loop of main over the collected updates. -/
def run_update_loop (should_update : Bool) (updates : List PackageUpdateData)
    (st : StrMap × StrMap × Bool) : StrMap × StrMap × Bool :=
  match updates with
  | [] => st
  | u :: rest => run_update_loop should_update rest (update_step should_update st u)

/-- Embeds lines 84-118 of main, given the collected update decisions: run
the update loop, then, in update mode only, merge the maps into the
manifest value with insert_new_maps, write the file, and select the
summary message by did_update_packages; without update mode nothing is
written and no summary message is printed. -/
def main_apply_phase (should_update : Bool) (updates : List PackageUpdateData)
    (package_json : JValue) (deps dev_deps : StrMap) : Except String ApplyResult :=
  let st := run_update_loop should_update updates (deps, dev_deps, false)
  if should_update then
    match insert_new_maps package_json st.1 st.2.1 with
    | .error e => .error e
    | .ok pj =>
      .ok ⟨st.1, st.2.1, st.2.2, some pj,
        some (if st.2.2 then .updated else .noUpdates)⟩
  else
    .ok ⟨st.1, st.2.1, st.2.2, none, none⟩

/-- The written manifest value of a main_apply_phase outcome, when any. -/
def writtenOf (r : Except String ApplyResult) : Option JValue :=
  match r with
  | .ok a => a.written
  | .error _ => none

/-- The summary message of a main_apply_phase outcome, when any. -/
def messageOf (r : Except String ApplyResult) : Option SummaryMessage :=
  match r with
  | .ok a => a.message
  | .error _ => none

/-! ## Front half of main (lines 72-82) -/

/-- Outcome of a run: a propagated terminal error carrying its message (a
question-mark propagation out of main, printed with non-zero exit status),
a panic (unwrap on None, a crash), or normal continuation into the update
loop and write-back. -/
inductive RunOutcome where
  | fatal (msg : String)
  | panicked
  | completed (result : Except String ApplyResult)

/-- Whether the outcome is a propagated terminal error with a message, as
opposed to a panic or normal completion. -/
def RunOutcome.isTerminalError : RunOutcome → Bool
  | .fatal _ => true
  | _ => false

/-- serde_json from_value of an object into an IndexMap of String to
String: every field value must be a string. -/
def decodeStrFields : List (Str × JValue) → Except String StrMap
  | [] => .ok []
  | (k, .str s) :: rest => (decodeStrFields rest).map (fun m => (k, s) :: m)
  | _ => .error "invalid type: expected a string"

/-- serde_json from_value into an IndexMap of String to String. -/
def decodeStrMap (v : JValue) : Except String StrMap :=
  match v with
  | .obj fields => decodeStrFields fields
  | _ => .error "invalid type: expected a map"

/-- Embeds main from the parse of the manifest onward: a parse failure
propagates as a terminal error; a manifest without the dependencies or
devDependencies key panics on unwrap; from_value failures propagate as
terminal errors; otherwise both groups are processed (runtime first) and
the collected decisions are handed to the update loop and write-back. -/
def main_run (parsed : Except String JValue) (should_update : Bool) (http : Http) :
    RunOutcome :=
  match parsed with
  | .error e => .fatal e
  | .ok package_json =>
    match jGet package_json DEP_KEY with
    | none => .panicked
    | some depsVal =>
      match jGet package_json DEV_DEP_KEY with
      | none => .panicked
      | some devDepsVal =>
        match decodeStrMap depsVal with
        | .error e => .fatal e
        | .ok deps =>
          match decodeStrMap devDepsVal with
          | .error e => .fatal e
          | .ok dev_deps =>
            .completed (main_apply_phase should_update
              ((process_dependencies http deps false).1
                ++ (process_dependencies http dev_deps true).1)
              package_json deps dev_deps)

/-- Network oracle for the batch divergence scenario: the lookup of pkg-a
times out, every other lookup answers version 2.0.0. -/
def http_timeout_a : Http := fun url =>
  if url = package_url (toL "pkg-a") then .error .timeout
  else .ok (.obj [(toL "version", .str (toL "2.0.0"))])

/-- Concrete update decision list for the write-back scenario. -/
def updates_w : List PackageUpdateData :=
  [⟨toL "package-a", toL "^1.0.0", toL "^2.0.0", false⟩,
   ⟨toL "package-c", toL "^3.0.0", toL "^3.5.0", true⟩]

/-- Concrete runtime dependency map for the write-back scenario. -/
def deps_w : StrMap :=
  [(toL "package-a", toL "^1.0.0"), (toL "package-b", toL "^2.0.0")]

/-- Concrete development dependency map for the write-back scenario. -/
def dev_deps_w : StrMap := [(toL "package-c", toL "^3.0.0")]

/-- Concrete manifest fields for the write-back scenario. -/
def fields_w : List (Str × JValue) :=
  [(toL "name", .str (toL "abc123")),
   (DEP_KEY, mapToJson deps_w),
   (DEV_DEP_KEY, mapToJson dev_deps_w)]

/-! ## Helper lemmas on the string model -/

theorem filter_ne_eq_self (l : Str) (c : Char) (h : ∀ x ∈ l, x ≠ c) :
    l.filter (fun x => x != c) = l := by
  rw [List.filter_eq_self]
  intro a ha
  simp [h a ha]

/-! ## Claims C1, C2, C3 -/

/-- C1: for an entry whose registry lookup succeeds, a fetched latest
version different from the stripped base version produces exactly one
update, whose old_version is the declared string and whose new_version is
the prefix glued onto the fetched version; a fetched version equal to the
stripped base version produces no update. -/
theorem compare_decision_of_lookup (http : Http) (version package_name latest : Str)
    (dev : Bool) (h : get_package_version http package_name = .ok latest) :
    (latest ≠ cmp_ver version →
      compare_package_version http version package_name dev
        = (some ⟨package_name, version, verPrefix version ++ latest, dev⟩, []))
    ∧ (latest = cmp_ver version →
      compare_package_version http version package_name dev = (none, [])) := by
  unfold compare_package_version
  rw [h]
  constructor
  · intro hne
    simp [hne]
  · intro heq
    simp [heq]

/-- C1 witness: concrete evaluation with a registry answering 2.0.0 against
a declared 1.0.0. -/
theorem compare_decision_of_lookup_witness :
    compare_package_version
        (fun _ => .ok (JValue.obj [(toL "version", JValue.str (toL "2.0.0"))]))
        (toL "1.0.0") (toL "react") false
      = (some ⟨toL "react", toL "1.0.0", toL "2.0.0", false⟩, []) :=
  (compare_decision_of_lookup
      (fun _ => .ok (JValue.obj [(toL "version", JValue.str (toL "2.0.0"))]))
      (toL "1.0.0") (toL "react") (toL "2.0.0") false rfl).1 (by decide)

/-- C2: parsing strips every occurrence of the two markers, from anywhere
in the string, to obtain the base version; the prefix is the caret when the
declared string contains one anywhere, else the tilde when it contains one
anywhere, else empty; every string is accepted. -/
theorem constraint_parse_spec (declared : Str) :
    cmp_ver declared = declared.filter (fun c => !(c == '^' || c == '~'))
    ∧ ('^' ∈ declared → verPrefix declared = toL "^")
    ∧ ('^' ∉ declared → '~' ∈ declared → verPrefix declared = toL "~")
    ∧ ('^' ∉ declared → '~' ∉ declared → verPrefix declared = []) := by
  refine ⟨?_, ?_, ?_, ?_⟩
  · rw [cmp_ver, List.filter_filter]
    congr 1
    funext c
    simp [bne, Bool.not_or, Bool.and_comm]
  · intro h1
    simp [verPrefix, h1]
  · intro h1 h2
    simp [verPrefix, h1, h2]
  · intro h1 h2
    simp [verPrefix, h1, h2]

/-- C2 witness: concrete evaluation on a declared string with a caret. -/
theorem constraint_parse_spec_witness :
    cmp_ver (toL "^1.2.3") = (toL "^1.2.3").filter (fun c => !(c == '^' || c == '~'))
    ∧ verPrefix (toL "^1.2.3") = toL "^" :=
  ⟨(constraint_parse_spec (toL "^1.2.3")).1,
    (constraint_parse_spec (toL "^1.2.3")).2.1 (by decide)⟩

/-- C3: on a declared string whose markers, if any, occur only as the
leading character, gluing the parsed prefix onto the parsed base version
gives back the original string. -/
theorem constraint_round_trip (s : Str)
    (h : ∀ c ∈ s.drop 1, c ≠ '^' ∧ c ≠ '~') :
    verPrefix s ++ cmp_ver s = s := by
  match s with
  | [] => rfl
  | c :: rest =>
    simp only [List.drop_succ_cons, List.drop_zero] at h
    have hcaret : ∀ x ∈ rest, x ≠ '^' := fun x hx => (h x hx).1
    have htilde : ∀ x ∈ rest, x ≠ '~' := fun x hx => (h x hx).2
    have hfilter : cmp_ver rest = rest := by
      rw [cmp_ver, filter_ne_eq_self rest '^' hcaret, filter_ne_eq_self rest '~' htilde]
    by_cases h1 : c = '^'
    · subst h1
      have hpre : verPrefix ('^' :: rest) = toL "^" := by
        simp [verPrefix]
      have hbase : cmp_ver ('^' :: rest) = rest := by
        have : ('^' :: rest).filter (fun x => x != '^') = rest.filter (fun x => x != '^') := by
          simp
        rw [cmp_ver, this, ← cmp_ver]
        exact hfilter
      rw [hpre, hbase]
      rfl
    · by_cases h2 : c = '~'
      · subst h2
        have hnoc : '^' ∉ ('~' :: rest) := by
          intro hmem
          rcases List.mem_cons.mp hmem with hx | hx
          · exact absurd hx (by decide)
          · exact hcaret '^' hx rfl
        have hpre : verPrefix ('~' :: rest) = toL "~" := by
          simp [verPrefix, hnoc]
        have hbase : cmp_ver ('~' :: rest) = rest := by
          have hstep : ('~' :: rest).filter (fun x => x != '^') = '~' :: rest.filter (fun x => x != '^') := by
            simp
          rw [cmp_ver, hstep]
          have hstep2 : ('~' :: rest.filter (fun x => x != '^')).filter (fun x => x != '~')
              = (rest.filter (fun x => x != '^')).filter (fun x => x != '~') := by
            simp
          rw [hstep2, ← cmp_ver]
          exact hfilter
        rw [hpre, hbase]
        rfl
      · have hnoc : '^' ∉ (c :: rest) := by
          intro hmem
          rcases List.mem_cons.mp hmem with hx | hx
          · exact h1 hx.symm
          · exact hcaret '^' hx rfl
        have hnot : '~' ∉ (c :: rest) := by
          intro hmem
          rcases List.mem_cons.mp hmem with hx | hx
          · exact h2 hx.symm
          · exact htilde '~' hx rfl
        have hpre : verPrefix (c :: rest) = [] := by
          simp [verPrefix, hnoc, hnot]
        have hbase : cmp_ver (c :: rest) = c :: rest := by
          rw [cmp_ver]
          rw [filter_ne_eq_self _ '^' (by
            intro x hx
            rcases List.mem_cons.mp hx with hx | hx
            · subst hx; exact h1
            · exact hcaret x hx)]
          rw [filter_ne_eq_self _ '~' (by
            intro x hx
            rcases List.mem_cons.mp hx with hx | hx
            · subst hx; exact h2
            · exact htilde x hx)]
        rw [hpre, hbase]
        rfl

/-- C3 witness: concrete round trip on a caret constraint. -/
theorem constraint_round_trip_witness :
    verPrefix (toL "^1.2.3") ++ cmp_ver (toL "^1.2.3") = toL "^1.2.3" :=
  constraint_round_trip (toL "^1.2.3") (by decide)

/-! ## Claims C4, C5, C6 -/

/-- C4: at a two-entry runtime group where the lookup of pkg-a times out
and the lookup of pkg-b answers a different version, the per-entry
function yields one warning for pkg-a and one decision for pkg-b, yet the
batch returns no decision and no warning, every created future having
been dropped unpolled. -/
theorem failing_lookup_batch_divergence :
    compare_package_version http_timeout_a (toL "1.0.0") (toL "pkg-a") false
        = (none, [⟨toL "pkg-a", FetchError.timeout⟩])
    ∧ compare_package_version http_timeout_a (toL "1.0.0") (toL "pkg-b") false
        = (some ⟨toL "pkg-b", toL "1.0.0", toL "2.0.0", false⟩, [])
    ∧ process_dependencies http_timeout_a
        [(toL "pkg-a", toL "1.0.0"), (toL "pkg-b", toL "1.0.0")] false
      = ([], []) :=
  ⟨rfl, rfl, rfl⟩

/-- C5: the reconciliation of any dependency group returns the empty
decision sequence whatever the oracle answers and whatever the group
holds, so the ordered decision sequence the claim describes is never
produced for a group with updatable entries. -/
theorem reconcile_output_empty (http : Http) (deps : StrMap) (dev : Bool) :
    process_dependencies http deps dev = ([], []) := rfl

/-- C6 counterexample: with an empty report and update mode requested on a
minimal manifest, main still writes the manifest file. -/
theorem empty_report_still_writes :
    writtenOf (main_apply_phase true [] (JValue.obj []) [] []) = some (JValue.obj []) := rfl

/-- C6 amended: with an empty report the update loop leaves both maps
unchanged and did_update_packages false; in update mode the no-updates
message is selected and the manifest file is nevertheless written, with
the merge of the unchanged maps; without update mode nothing is written
and no summary message is selected. -/
theorem empty_report_behavior (should_update : Bool) (package_json : JValue)
    (deps dev_deps : StrMap) :
    main_apply_phase should_update [] package_json deps dev_deps
      = .ok ⟨deps, dev_deps, false,
          if should_update then (insert_new_maps package_json deps dev_deps).toOption
          else none,
          if should_update then some .noUpdates else none⟩ := by
  cases should_update <;> rfl

/-! ## Lemmas on maps and JSON objects -/

theorem mapLookup_mapInsert_self (m : StrMap) (k v : Str) :
    mapLookup (mapInsert m k v) k = some v := by
  induction m with
  | nil => simp [mapInsert, mapLookup]
  | cons kv rest ih =>
    obtain ⟨k', v'⟩ := kv
    by_cases h : k' = k
    · simp [mapInsert, mapLookup, h]
    · simp [mapInsert, mapLookup, h, ih]

theorem mapLookup_mapInsert_ne (m : StrMap) (k v k' : Str) (h : k' ≠ k) :
    mapLookup (mapInsert m k v) k' = mapLookup m k' := by
  induction m with
  | nil =>
    have hne : ¬k = k' := fun hh => h hh.symm
    simp [mapInsert, mapLookup, hne]
  | cons kv rest ih =>
    obtain ⟨k'', v''⟩ := kv
    by_cases hk : k'' = k
    · subst hk
      have : ¬k'' = k' := fun hh => h hh.symm
      simp [mapInsert, mapLookup, this]
    · by_cases hk' : k'' = k'
      · simp [mapInsert, mapLookup, hk, hk', h]
      · simp [mapInsert, mapLookup, hk, hk', ih]

theorem mapContains_eq_mem (m : StrMap) (k : Str) :
    mapContains m k = true ↔ k ∈ mapKeys m := by
  induction m with
  | nil => simp [mapContains, mapKeys]
  | cons kv rest ih =>
    obtain ⟨k', v'⟩ := kv
    by_cases h : k' = k
    · simp [mapContains, mapKeys, h]
    · rw [mapContains, if_neg h]
      have hkeys : mapKeys ((k', v') :: rest) = k' :: mapKeys rest := rfl
      rw [hkeys]
      constructor
      · intro hc
        exact List.mem_cons_of_mem _ (ih.mp hc)
      · intro hm
        rcases List.mem_cons.mp hm with hh | hh
        · exact absurd hh (fun hhh => h hhh.symm)
        · exact ih.mpr hh

theorem mapKeys_mapInsert (m : StrMap) (k v : Str) (h : mapContains m k = true) :
    mapKeys (mapInsert m k v) = mapKeys m := by
  induction m with
  | nil => simp [mapContains] at h
  | cons kv rest ih =>
    obtain ⟨k', v'⟩ := kv
    by_cases hk : k' = k
    · simp [mapInsert, mapKeys, hk]
    · rw [mapContains, if_neg hk] at h
      simp [mapInsert, mapKeys, hk]
      simpa [mapKeys] using ih h

theorem jSetFields_keys (fields : List (Str × JValue)) (key : Str) (v : JValue) :
    (jSetFields fields key v).map Prod.fst = fields.map Prod.fst := by
  induction fields with
  | nil => rfl
  | cons kv rest ih =>
    obtain ⟨k, w⟩ := kv
    by_cases h : k = key <;> simp [jSetFields, h, ih]

theorem jGetFields_jSetFields_ne (fields : List (Str × JValue)) (key : Str)
    (v : JValue) (k' : Str) (h : k' ≠ key) :
    jGetFields (jSetFields fields key v) k' = jGetFields fields k' := by
  induction fields with
  | nil => rfl
  | cons kv rest ih =>
    obtain ⟨k, w⟩ := kv
    by_cases hk : k = key
    · subst hk
      have : ¬k = k' := fun hh => h hh.symm
      simp [jSetFields, jGetFields, this]
    · by_cases hk' : k = k'
      · simp [jSetFields, jGetFields, hk, hk', h]
      · simp [jSetFields, jGetFields, hk, hk', ih]

theorem jGetFields_jSetFields_self (fields : List (Str × JValue)) (key : Str)
    (v : JValue) (h : jGetFields fields key ≠ none) :
    jGetFields (jSetFields fields key v) key = some v := by
  induction fields with
  | nil => simp [jGetFields] at h
  | cons kv rest ih =>
    obtain ⟨k, w⟩ := kv
    by_cases hk : k = key
    · simp [jSetFields, jGetFields, hk]
    · rw [jGetFields, if_neg hk] at h
      simp [jSetFields, jGetFields, hk]
      exact ih h

theorem jSetFields_absent (fields : List (Str × JValue)) (key : Str) (v : JValue)
    (h : jGetFields fields key = none) :
    jSetFields fields key v = fields := by
  induction fields with
  | nil => rfl
  | cons kv rest ih =>
    obtain ⟨k, w⟩ := kv
    by_cases hk : k = key
    · rw [jGetFields, if_pos hk] at h
      cases h
    · rw [jGetFields, if_neg hk] at h
      simp [jSetFields, hk, ih h]

theorem jSet_absent (pj : JValue) (key : Str) (v : JValue) (h : jGet pj key = none) :
    jSet pj key v = pj := by
  cases pj with
  | obj fields =>
    rw [jGet] at h
    rw [jSet, jSetFields_absent fields key v h]
  | _ => rfl

theorem jGet_jSet_ne (pj : JValue) (key : Str) (v : JValue) (k' : Str) (h : k' ≠ key) :
    jGet (jSet pj key v) k' = jGet pj k' := by
  cases pj with
  | obj fields =>
    rw [jSet, jGet, jGet]
    exact jGetFields_jSetFields_ne fields key v k' h
  | _ => rfl

/-! ## Lemmas on the update loop of main -/

theorem loop_fst_frame (updates : List PackageUpdateData) (st : StrMap × StrMap × Bool)
    (k : Str) (h : ∀ u ∈ updates, u.dev = false → u.package_name ≠ k) :
    mapLookup (run_update_loop true updates st).1 k = mapLookup st.1 k := by
  induction updates generalizing st with
  | nil => rfl
  | cons u rest ih =>
    rw [run_update_loop]
    rw [ih _ (fun w hw => h w (List.mem_cons_of_mem u hw))]
    cases hu : u.dev
    · simp only [update_step, if_true, hu, Bool.false_eq_true, if_false]
      exact mapLookup_mapInsert_ne st.1 _ _ k
        (fun hh => h u (List.mem_cons_self u rest) hu hh.symm)
    · simp [update_step, hu]

theorem loop_snd_frame (updates : List PackageUpdateData) (st : StrMap × StrMap × Bool)
    (k : Str) (h : ∀ u ∈ updates, u.dev = true → u.package_name ≠ k) :
    mapLookup (run_update_loop true updates st).2.1 k = mapLookup st.2.1 k := by
  induction updates generalizing st with
  | nil => rfl
  | cons u rest ih =>
    rw [run_update_loop]
    rw [ih _ (fun w hw => h w (List.mem_cons_of_mem u hw))]
    cases hu : u.dev
    · simp [update_step, hu]
    · simp only [update_step, if_true, hu, if_true]
      exact mapLookup_mapInsert_ne st.2.1 _ _ k
        (fun hh => h u (List.mem_cons_self u rest) hu hh.symm)

theorem loop_fst_update (updates : List PackageUpdateData) (st : StrMap × StrMap × Bool)
    (u : PackageUpdateData) (hu : u ∈ updates) (hdev : u.dev = false)
    (hnodup : (updates.map PackageUpdateData.package_name).Nodup) :
    mapLookup (run_update_loop true updates st).1 u.package_name = some u.new_version := by
  induction updates generalizing st with
  | nil => cases hu
  | cons v rest ih =>
    rcases List.mem_cons.mp hu with rfl | hmem
    · rw [run_update_loop]
      have hnotin : u.package_name ∉ rest.map PackageUpdateData.package_name :=
        (List.nodup_cons.mp hnodup).1
      rw [loop_fst_frame rest _ _ (fun w hw _ => fun hh =>
        hnotin (by rw [← hh]; exact List.mem_map_of_mem _ hw))]
      simp only [update_step, if_true, hdev, Bool.false_eq_true, if_false]
      exact mapLookup_mapInsert_self st.1 u.package_name u.new_version
    · rw [run_update_loop]
      exact ih _ hmem (List.nodup_cons.mp hnodup).2

theorem loop_snd_update (updates : List PackageUpdateData) (st : StrMap × StrMap × Bool)
    (u : PackageUpdateData) (hu : u ∈ updates) (hdev : u.dev = true)
    (hnodup : (updates.map PackageUpdateData.package_name).Nodup) :
    mapLookup (run_update_loop true updates st).2.1 u.package_name = some u.new_version := by
  induction updates generalizing st with
  | nil => cases hu
  | cons v rest ih =>
    rcases List.mem_cons.mp hu with rfl | hmem
    · rw [run_update_loop]
      have hnotin : u.package_name ∉ rest.map PackageUpdateData.package_name :=
        (List.nodup_cons.mp hnodup).1
      rw [loop_snd_frame rest _ _ (fun w hw _ => fun hh =>
        hnotin (by rw [← hh]; exact List.mem_map_of_mem _ hw))]
      simp only [update_step, if_true, hdev, if_true]
      exact mapLookup_mapInsert_self st.2.1 u.package_name u.new_version
    · rw [run_update_loop]
      exact ih _ hmem (List.nodup_cons.mp hnodup).2

theorem loop_fst_keys (updates : List PackageUpdateData) (st : StrMap × StrMap × Bool)
    (h : ∀ u ∈ updates, u.dev = false → mapContains st.1 u.package_name = true) :
    mapKeys (run_update_loop true updates st).1 = mapKeys st.1 := by
  induction updates generalizing st with
  | nil => rfl
  | cons u rest ih =>
    rw [run_update_loop]
    have hstep : mapKeys (update_step true st u).1 = mapKeys st.1 := by
      cases hu : u.dev
      · simp only [update_step, if_true, hu, Bool.false_eq_true, if_false]
        exact mapKeys_mapInsert st.1 _ _ (h u (List.mem_cons_self u rest) hu)
      · simp [update_step, hu]
    rw [ih _ ?_, hstep]
    intro w hw hwdev
    rw [mapContains_eq_mem, hstep, ← mapContains_eq_mem]
    exact h w (List.mem_cons_of_mem u hw) hwdev

theorem loop_snd_keys (updates : List PackageUpdateData) (st : StrMap × StrMap × Bool)
    (h : ∀ u ∈ updates, u.dev = true → mapContains st.2.1 u.package_name = true) :
    mapKeys (run_update_loop true updates st).2.1 = mapKeys st.2.1 := by
  induction updates generalizing st with
  | nil => rfl
  | cons u rest ih =>
    rw [run_update_loop]
    have hstep : mapKeys (update_step true st u).2.1 = mapKeys st.2.1 := by
      cases hu : u.dev
      · simp [update_step, hu]
      · simp only [update_step, if_true, hu, if_true]
        exact mapKeys_mapInsert st.2.1 _ _ (h u (List.mem_cons_self u rest) hu)
    rw [ih _ ?_, hstep]
    intro w hw hwdev
    rw [mapContains_eq_mem, hstep, ← mapContains_eq_mem]
    exact h w (List.mem_cons_of_mem u hw) hwdev

/-! ## Claims C7, C8, C9, C10 -/

/-- C7: in update mode the write-back replaces only the two dependency
maps: each decision overwrites the value at its package name in the map of
its group, keys without a decision keep their value, the key order of each
map is preserved, and every other top-level manifest field is unchanged. -/
theorem apply_mode_write_back (updates : List PackageUpdateData)
    (fields : List (Str × JValue)) (deps dev_deps : StrMap)
    (hnodup : (updates.map PackageUpdateData.package_name).Nodup)
    (hdep : ∀ u ∈ updates, u.dev = false → mapContains deps u.package_name = true)
    (hdev : ∀ u ∈ updates, u.dev = true → mapContains dev_deps u.package_name = true) :
    ∃ deps' dev_deps' did fields',
      main_apply_phase true updates (.obj fields) deps dev_deps
        = .ok ⟨deps', dev_deps', did, some (.obj fields'),
            some (if did then .updated else .noUpdates)⟩
      ∧ fields'.map Prod.fst = fields.map Prod.fst
      ∧ (∀ k, k ≠ DEP_KEY → k ≠ DEV_DEP_KEY → jGetFields fields' k = jGetFields fields k)
      ∧ (jGetFields fields DEP_KEY ≠ none →
          jGetFields fields' DEP_KEY = some (mapToJson deps'))
      ∧ (jGetFields fields DEV_DEP_KEY ≠ none →
          jGetFields fields' DEV_DEP_KEY = some (mapToJson dev_deps'))
      ∧ mapKeys deps' = mapKeys deps
      ∧ mapKeys dev_deps' = mapKeys dev_deps
      ∧ (∀ u ∈ updates, u.dev = false →
          mapLookup deps' u.package_name = some u.new_version)
      ∧ (∀ u ∈ updates, u.dev = true →
          mapLookup dev_deps' u.package_name = some u.new_version)
      ∧ (∀ k, (∀ u ∈ updates, u.dev = false → u.package_name ≠ k) →
          mapLookup deps' k = mapLookup deps k)
      ∧ (∀ k, (∀ u ∈ updates, u.dev = true → u.package_name ≠ k) →
          mapLookup dev_deps' k = mapLookup dev_deps k) := by
  refine ⟨(run_update_loop true updates (deps, dev_deps, false)).1,
    (run_update_loop true updates (deps, dev_deps, false)).2.1,
    (run_update_loop true updates (deps, dev_deps, false)).2.2,
    jSetFields (jSetFields fields DEP_KEY
        (mapToJson (run_update_loop true updates (deps, dev_deps, false)).1))
      DEV_DEP_KEY (mapToJson (run_update_loop true updates (deps, dev_deps, false)).2.1),
    rfl, ?_, ?_, ?_, ?_, ?_, ?_, ?_, ?_, ?_, ?_⟩
  · rw [jSetFields_keys, jSetFields_keys]
  · intro k h1 h2
    rw [jGetFields_jSetFields_ne _ _ _ _ h2, jGetFields_jSetFields_ne _ _ _ _ h1]
  · intro hne
    rw [jGetFields_jSetFields_ne _ _ _ _ (show DEP_KEY ≠ DEV_DEP_KEY by decide)]
    exact jGetFields_jSetFields_self _ _ _ hne
  · intro hne
    have hinner : jGetFields
        (jSetFields fields DEP_KEY
          (mapToJson (run_update_loop true updates (deps, dev_deps, false)).1))
        DEV_DEP_KEY = jGetFields fields DEV_DEP_KEY :=
      jGetFields_jSetFields_ne _ _ _ _ (show DEV_DEP_KEY ≠ DEP_KEY by decide)
    exact jGetFields_jSetFields_self _ _ _ (by rw [hinner]; exact hne)
  · exact loop_fst_keys updates (deps, dev_deps, false) hdep
  · exact loop_snd_keys updates (deps, dev_deps, false) hdev
  · intro u hu hd
    exact loop_fst_update updates (deps, dev_deps, false) u hu hd hnodup
  · intro u hu hd
    exact loop_snd_update updates (deps, dev_deps, false) u hu hd hnodup
  · intro k hk
    exact loop_fst_frame updates (deps, dev_deps, false) k hk
  · intro k hk
    exact loop_snd_frame updates (deps, dev_deps, false) k hk

/-- C7 witness: concrete write-back of two decisions, one per group, onto a
manifest with a name field and both dependency maps. -/
theorem apply_mode_write_back_witness :
    ∃ deps' dev_deps' did fields',
      main_apply_phase true updates_w (.obj fields_w) deps_w dev_deps_w
        = .ok ⟨deps', dev_deps', did, some (.obj fields'),
            some (if did then .updated else .noUpdates)⟩
      ∧ fields'.map Prod.fst = fields_w.map Prod.fst
      ∧ (∀ k, k ≠ DEP_KEY → k ≠ DEV_DEP_KEY → jGetFields fields' k = jGetFields fields_w k)
      ∧ (jGetFields fields_w DEP_KEY ≠ none →
          jGetFields fields' DEP_KEY = some (mapToJson deps'))
      ∧ (jGetFields fields_w DEV_DEP_KEY ≠ none →
          jGetFields fields' DEV_DEP_KEY = some (mapToJson dev_deps'))
      ∧ mapKeys deps' = mapKeys deps_w
      ∧ mapKeys dev_deps' = mapKeys dev_deps_w
      ∧ (∀ u ∈ updates_w, u.dev = false →
          mapLookup deps' u.package_name = some u.new_version)
      ∧ (∀ u ∈ updates_w, u.dev = true →
          mapLookup dev_deps' u.package_name = some u.new_version)
      ∧ (∀ k, (∀ u ∈ updates_w, u.dev = false → u.package_name ≠ k) →
          mapLookup deps' k = mapLookup deps_w k)
      ∧ (∀ k, (∀ u ∈ updates_w, u.dev = true → u.package_name ≠ k) →
          mapLookup dev_deps' k = mapLookup dev_deps_w k) :=
  apply_mode_write_back updates_w fields_w deps_w dev_deps_w
    (by decide) (by decide) (by decide)

/-- C8 counterexample: a manifest that parses but lacks the dependencies
key does not end in a propagated terminal error carrying a message: main
panics on unwrap instead. -/
theorem missing_deps_key_not_terminal :
    RunOutcome.isTerminalError
        (main_run (.ok (JValue.obj [])) false (fun _ => .error FetchError.transport))
      = false := rfl

/-- C8 amended: a malformed manifest (parse failure) aborts as a terminal
error carrying the parse message, identically for every network oracle and
so before any network activity; a manifest lacking the dependencies key
also aborts for every oracle before any network activity, but by a panic
on unwrap rather than by a descriptive terminal error. -/
theorem manifest_errors_abort :
    (∀ (e : String) (su : Bool) (http : Http), main_run (.error e) su http = .fatal e)
    ∧ (∀ (pj : JValue) (su : Bool) (http : Http),
        jGet pj DEP_KEY = none → main_run (.ok pj) su http = .panicked) := by
  constructor
  · intro e su http
    rfl
  · intro pj su http h
    simp [main_run, h]

/-- C8 witness: a manifest with only a name field panics under every mode,
here with the update flag set. -/
theorem manifest_errors_abort_witness :
    main_run (.ok (JValue.obj [(toL "name", JValue.str (toL "x"))])) true
        (fun _ => .error FetchError.transport) = .panicked :=
  manifest_errors_abort.2 _ _ _ rfl

/-- C9 counterexample: the URL requested for react carries a doubled slash
after the host, not the single-slash path the claim states. -/
theorem request_url_doubled_slash :
    package_url (toL "react") = toL "https://registry.npmjs.org//react/latest"
    ∧ package_url (toL "react") ≠ toL "https://registry.npmjs.org/react/latest" :=
  ⟨rfl, by decide⟩

/-- C9 amended: the lookup requests exactly API_URL, a slash, the package
name and the latest segment; since API_URL already ends in a slash the
URL carries a doubled slash after the host; a success body holding a
version string yields exactly that string. -/
theorem registry_lookup_amended (http : Http) (package_name v : Str)
    (h : http (package_url package_name)
        = .ok (.obj [(toL "version", JValue.str v)])) :
    package_url package_name
        = toL "https://registry.npmjs.org//" ++ package_name ++ toL "/latest"
    ∧ get_package_version http package_name = .ok v := by
  constructor
  · exact (List.append_assoc API_URL (toL "/") (package_name ++ toL "/latest")).symm
  · unfold get_package_version
    rw [h]
    rfl

/-- C9 witness: concrete lookup of left-pad against an oracle answering
version 1.3.0. -/
theorem registry_lookup_amended_witness :
    package_url (toL "left-pad")
        = toL "https://registry.npmjs.org//" ++ toL "left-pad" ++ toL "/latest"
    ∧ get_package_version
        (fun _ => .ok (JValue.obj [(toL "version", JValue.str (toL "1.3.0"))]))
        (toL "left-pad")
      = .ok (toL "1.3.0") :=
  registry_lookup_amended _ (toL "left-pad") (toL "1.3.0") rfl

/-- C10: insert_new_maps always returns Ok; it never creates an absent key,
leaves the value unchanged at any key absent from the manifest, replaces
only keys already present, and returns the manifest unchanged when both
dependency keys are missing. -/
theorem insert_missing_keys (package_json : JValue) (deps dev_deps : StrMap) :
    ∃ v, insert_new_maps package_json deps dev_deps = .ok v
      ∧ (∀ k, jGet package_json k = none → jGet v k = none)
      ∧ (jGet package_json DEP_KEY = none → jGet package_json DEV_DEP_KEY = none →
          v = package_json)
      ∧ (∀ k, k ≠ DEP_KEY → k ≠ DEV_DEP_KEY → jGet v k = jGet package_json k) := by
  refine ⟨_, rfl, ?_, ?_, ?_⟩
  · intro k hk
    by_cases h1 : k = DEP_KEY
    · subst h1
      have hfirst : jSet package_json DEP_KEY (mapToJson deps) = package_json :=
        jSet_absent _ _ _ hk
      rw [hfirst, jGet_jSet_ne _ _ _ _ (show DEP_KEY ≠ DEV_DEP_KEY by decide)]
      exact hk
    · by_cases h2 : k = DEV_DEP_KEY
      · subst h2
        have hinner : jGet (jSet package_json DEP_KEY (mapToJson deps)) DEV_DEP_KEY
            = jGet package_json DEV_DEP_KEY :=
          jGet_jSet_ne _ _ _ _ (show DEV_DEP_KEY ≠ DEP_KEY by decide)
        rw [jSet_absent _ _ _ (by rw [hinner]; exact hk), hinner]
        exact hk
      · rw [jGet_jSet_ne _ _ _ _ h2, jGet_jSet_ne _ _ _ _ h1]
        exact hk
  · intro h1 h2
    rw [jSet_absent _ _ _ h1, jSet_absent _ _ _ h2]
  · intro k h1 h2
    rw [jGet_jSet_ne _ _ _ _ h2, jGet_jSet_ne _ _ _ _ h1]

/-- C10 witness: a manifest holding only a name field is returned
unchanged. -/
theorem insert_missing_keys_witness :
    ∃ v, insert_new_maps (JValue.obj [(toL "name", JValue.str (toL "x"))]) [] []
        = .ok v
      ∧ (∀ k, jGet (JValue.obj [(toL "name", JValue.str (toL "x"))]) k = none →
          jGet v k = none)
      ∧ (jGet (JValue.obj [(toL "name", JValue.str (toL "x"))]) DEP_KEY = none →
          jGet (JValue.obj [(toL "name", JValue.str (toL "x"))]) DEV_DEP_KEY = none →
          v = JValue.obj [(toL "name", JValue.str (toL "x"))])
      ∧ (∀ k, k ≠ DEP_KEY → k ≠ DEV_DEP_KEY →
          jGet v k = jGet (JValue.obj [(toL "name", JValue.str (toL "x"))]) k) :=
  insert_missing_keys _ [] []
